import Mathlib

/-!
A verification development for `tensorflow_datasets/core/subsplits_utils.py`:
the even-split utilities that partition a dataset split into `n` contiguous,
non-overlapping sub-splits.  The Python module is shallowly embedded below;
machine integers are modelled as `Nat`/`Int` (Python integers are unbounded,
so no wrap-around is involved), and fallible code returns `Except`.
-/

namespace SubsplitsUtils

/-- Mirror of the `Remainder` enum: the split remainder strategy. -/
inductive Remainder
  | LEGACY_PERCENT
  | DROP
  | BALANCE
  | ON_FIRST
  deriving DecidableEq, Repr

/-- Python `str(...)` of a `Remainder` value, as interpolated into the
`ValueError` message `f'Invalid remainder: {self.remainder}'`. -/
def Remainder.pyStr : Remainder → String
  | .LEGACY_PERCENT => "Remainder.LEGACY_PERCENT"
  | .DROP => "Remainder.DROP"
  | .BALANCE => "Remainder.BALANCE"
  | .ON_FIRST => "Remainder.ON_FIRST"

/-- The exception kinds the embedded Python code can raise:
`ValueError` (with its message), `IndexError` from list indexing,
`ZeroDivisionError` from `//` and `%`, `AssertionError` from `assert`,
and `TypeError` from `functools.reduce` on an empty sequence. -/
inductive SplitError
  | valueError (msg : String)
  | indexError
  | zeroDivisionError
  | assertionError (msg : String)
  | typeError (msg : String)
  deriving DecidableEq, Repr

deriving instance DecidableEq for Except

/-- Mirror of the frozen dataclass `_EvenSplit`: a lazy split descriptor
carrying the split expression, the shard index, the shard count and the
remainder policy. -/
structure _EvenSplit where
  split : String
  index : Nat
  count : Nat
  remainder : Remainder
  deriving DecidableEq, Repr

/-- One absolute instruction, as produced by
`ReadInstruction.from_spec(...).to_absolute(split_infos)` in the external
reader module: a split name with optional absolute `from_`/`to` offsets
(`None` meaning "start of split" / "end of split" respectively). -/
structure AbsInstruction where
  splitname : String
  from_ : Option Nat
  «to» : Option Nat
  deriving DecidableEq, Repr

/-- The `ReadInstruction(splitname, from_=shard_start, to=shard_end,
unit='abs')` value returned by `_absolute_to_read_instruction_for_index`. -/
structure ReadInstructionAbs where
  splitname : String
  from_ : Nat
  «to» : Nat
  deriving DecidableEq, Repr

/-- The content of the `logging.warning('Dropping %d examples of %d examples
(host count: %d).', ...)` call on the DROP path: it is a side effect in
Python and is reified here as data so the theorems can talk about it. -/
structure DropWarning where
  numUnused : Nat
  numExamples : Nat
  count : Nat
  deriving DecidableEq, Repr

/-- Mirror of `_EvenSplit._absolute_to_read_instruction_for_index`.
`split_infos` models the `SplitDict` as a total lookup from split name to
`num_examples` (the claims never query a missing key).  Python's
`abs_inst.from_ or 0` maps both `None` and `0` to `0`, i.e. `Option.getD 0`.
The `assert end >= start` is modelled as a fatal `assertionError`; a
`count` of zero would make Python's `//` raise `ZeroDivisionError` before
anything else (the two later asserts on `num_unused_examples` can then
never fail for `Nat` arithmetic and need no model).  The emitted warning is
returned alongside the instruction instead of being logged. -/
def _absolute_to_read_instruction_for_index (self : _EvenSplit)
    (abs_inst : AbsInstruction) (split_infos : String → Nat) :
    Except SplitError (ReadInstructionAbs × Option DropWarning) :=
  let start := abs_inst.from_.getD 0
  let end_ :=
    match abs_inst.«to» with
    | none => split_infos abs_inst.splitname
    | some t => t
  if end_ < start then
    .error (.assertionError ("start=" ++ toString start ++ ", end=" ++ toString end_))
  else
    let num_examples := end_ - start
    if self.count = 0 then .error .zeroDivisionError
    else
      let examples_per_host := num_examples / self.count
      let shard_start := start + examples_per_host * self.index
      let shard_end := start + examples_per_host * (self.index + 1)
      let num_unused_examples := num_examples % self.count
      if 0 < num_unused_examples then
        match self.remainder with
        | .DROP =>
            .ok (⟨abs_inst.splitname, shard_start, shard_end⟩,
                 some ⟨num_unused_examples, num_examples, self.count⟩)
        | .BALANCE =>
            .ok (⟨abs_inst.splitname, shard_start + min self.index num_unused_examples,
                  shard_end + min (self.index + 1) num_unused_examples⟩, none)
        | .ON_FIRST =>
            .ok (⟨abs_inst.splitname,
                  if 0 < self.index then shard_start + num_unused_examples
                  else shard_start,
                  shard_end + num_unused_examples⟩, none)
        | r => .error (.valueError ("Invalid remainder: " ++ r.pyStr))
      else
        .ok (⟨abs_inst.splitname, shard_start, shard_end⟩, none)

/-- Mirror of `_EvenSplit.resolve`.  The parsing step
(`ReadInstruction.from_spec(self.split).to_absolute(split_infos)`) lives in
the external reader module, which is out of scope per the spec; `resolve`
therefore consumes the already-resolved list of absolute instructions.
Modelled from the spec: the `functools.reduce(operator.add, ...)` over the
external `ReadInstruction` type is the ordered concatenation of the
per-range instructions (one per `+` addend, in the original expression
order); Python's `reduce` with no initial value raises `TypeError` on an
empty sequence.  Warnings are collected in order. -/
def resolve (self : _EvenSplit) (absolute_instructions : List AbsInstruction)
    (split_infos : String → Nat) :
    Except SplitError (List ReadInstructionAbs × List DropWarning) :=
  match absolute_instructions.mapM
      (fun a => _absolute_to_read_instruction_for_index self a split_infos) with
  | .error e => .error e
  | .ok [] => .error (.typeError ("reduce() of empty iterable with no initial value"))
  | .ok rs => .ok (rs.map Prod.fst, rs.filterMap Prod.snd)

/-- Round-half-to-even of the exact rational `a / b` (`b ≠ 0`), modelling
Python's built-in `round(i * 100 / n)`.  Python computes the quotient in
binary floating point, but for the values reachable here
(`0 ≤ a ≤ 10100`, `1 ≤ b ≤ 100`) the exact quotient is either exactly a
half-integer — then it is exactly representable as a double and `round`
applies the same half-to-even rule — or at distance at least `1/(2·100)`
from every half-integer, far larger than the rounding error of one
division, so the float result rounds to the same integer as the exact
rational. -/
def pyRound (a b : Nat) : Nat :=
  let q := a / b
  let r := a % b
  if 2 * r < b then q
  else if b < 2 * r then q + 1
  else if q % 2 = 0 then q else q + 1

/-- Mirror of `_even_split_percent`.  Python's `'[' in split or '+' in split`
is the character-membership test on the string; `n` is an unbounded Python
integer, hence `Int`.  The intermediate `partitions` list
(`[round(i * 100 / n) for i in range(n + 1)]`) is inlined: entry `i` of the
result uses boundaries `partitions[i]` and `partitions[i+1]`, i.e.
`pyRound (i * 100) n` and `pyRound ((i+1) * 100) n`. -/
def _even_split_percent (split : String) (n : Int) : Except SplitError (List String) :=
  if split.data.contains '[' || split.data.contains '+' then
    .error (.valueError ("Using tfds.even_splits with subsplits require setting " ++
      "`remainder=tfds.Remainder.XYZ`"))
  else if n ≤ 0 ∨ 100 < n then
    .error (.valueError ("n should be > 0 and <= 100. Got " ++ toString n ++ ". Please use " ++
      "`remainder=tfds.Remainder.BALANCE` if you need more precise splits."))
  else
    .ok ((List.range n.toNat).map (fun i =>
      split ++ "[" ++ toString (pyRound (i * 100) n.toNat) ++ "%:" ++
        toString (pyRound ((i + 1) * 100) n.toNat) ++ "%]"))

/-- The `SplitArg` union: a textual split expression (legacy mode) or a
lazy `_EvenSplit` descriptor. -/
inductive SplitArg
  | text (s : String)
  | lazy (s : _EvenSplit)
  deriving DecidableEq, Repr

/-- Mirror of `even_splits`.  On the non-legacy path Python builds
`[_EvenSplit(split=split, index=i, count=n, remainder=remainder) for i in
range(n)]`; `range(n)` is empty for `n <= 0`, so a descriptor is only ever
built with `n ≥ 1`, where storing `n.toNat` is the same integer as `n`. -/
def even_splits (split : String) (n : Int) (remainder : Remainder) :
    Except SplitError (List SplitArg) :=
  if remainder = .LEGACY_PERCENT then
    (_even_split_percent split n).map (fun l => l.map SplitArg.text)
  else
    .ok ((List.range n.toNat).map (fun i =>
      SplitArg.lazy ⟨split, i, n.toNat, remainder⟩))

/-- The external distributed-process context: the pair returned by
`jax.process_index()` / `jax.process_count()`. -/
structure JaxContext where
  process_index : Nat
  process_count : Nat

/-- Python list indexing `l[i]`: a negative `i` counts from the end
(`i + len(l)`), and an index out of range on either side is `IndexError`
(modelled as `none`). -/
def pyListGet {α : Type} (l : List α) (i : Int) : Option α :=
  let j : Int := if i < 0 then (l.length : Int) + i else i
  if 0 ≤ j then l.get? j.toNat else none

/-- Mirror of `split_for_jax_process`.  Each of `index` and `count` is
defaulted independently: `if index is None: index = jax.process_index()`
and then `if count is None: count = jax.process_count()`.  The final
`even_splits(split, n=count, remainder=remainder)[index]` uses Python list
indexing, so an out-of-range `index` is an `IndexError`.  Python's default
for `remainder` is `Remainder.DROP`. -/
def split_for_jax_process (split : String) (index : Option Int) (count : Option Int)
    (remainder : Remainder) (jax : JaxContext) : Except SplitError SplitArg :=
  let index : Int :=
    match index with
    | none => (jax.process_index : Int)
    | some i => i
  let count : Int :=
    match count with
    | none => (jax.process_count : Int)
    | some c => c
  match even_splits split count remainder with
  | .error e => .error e
  | .ok l =>
    match pyListGet l index with
    | some a => .ok a
    | none => .error .indexError

/-- The shard window `(shard_start, shard_end)` computed by
`_absolute_to_read_instruction_for_index` for a single absolute range
`[start, end)`: a projection of the full result used to state the
window-arithmetic claims. -/
def shardWindow (remainder : Remainder) (count index start end_ : Nat) :
    Except SplitError (Nat × Nat) :=
  (_absolute_to_read_instruction_for_index ⟨"train", index, count, remainder⟩
      ⟨"train", some start, some end_⟩ (fun _ => 0)).map
    (fun p => (p.1.from_, p.1.«to»))

-- Sanity checks against the table of `subsplits_utils_test.py`.
example : shardWindow .DROP 4 0 0 9 = .ok (0, 2) := by decide
example : shardWindow .DROP 4 3 0 9 = .ok (6, 8) := by decide
example : shardWindow .BALANCE 4 0 0 9 = .ok (0, 3) := by decide
example : shardWindow .BALANCE 3 1 0 11 = .ok (4, 8) := by decide
example : shardWindow .ON_FIRST 3 0 0 11 = .ok (0, 5) := by decide
example : shardWindow .ON_FIRST 3 2 0 11 = .ok (8, 11) := by decide
example : shardWindow .ON_FIRST 1 0 0 9 = .ok (0, 9) := by decide

/-! ## Closed-form shard boundaries

For a range `[start, end_)` split `count` ways, each policy's shard `i` is
the window `[b i, b (i+1))` for a policy-specific boundary function `b`. -/

/-- Shard boundary for DROP: the unadjusted baseline. -/
def dropBound (start end_ count i : Nat) : Nat :=
  start + (end_ - start) / count * i

/-- Shard boundary for BALANCE. -/
def balBound (start end_ count i : Nat) : Nat :=
  start + (end_ - start) / count * i + min i ((end_ - start) % count)

/-- Shard boundary for ON_FIRST. -/
def onFirstBound (start end_ count i : Nat) : Nat :=
  if i = 0 then start
  else start + (end_ - start) / count * i + (end_ - start) % count

theorem shardWindow_eq_drop (start end_ count i : Nat)
    (hse : start ≤ end_) (hc : count ≠ 0) :
    shardWindow .DROP count i start end_ =
      .ok (dropBound start end_ count i, dropBound start end_ count (i + 1)) := by
  simp only [shardWindow, _absolute_to_read_instruction_for_index, Option.getD,
    dropBound]
  rw [if_neg (by omega)]
  rw [if_neg hc]
  by_cases hr : 0 < (end_ - start) % count
  · rw [if_pos hr]
    rfl
  · rw [if_neg hr]
    rfl

theorem shardWindow_eq_balance (start end_ count i : Nat)
    (hse : start ≤ end_) (hc : count ≠ 0) :
    shardWindow .BALANCE count i start end_ =
      .ok (balBound start end_ count i, balBound start end_ count (i + 1)) := by
  simp only [shardWindow, _absolute_to_read_instruction_for_index, Option.getD,
    balBound]
  rw [if_neg (by omega)]
  rw [if_neg hc]
  by_cases hr : 0 < (end_ - start) % count
  · rw [if_pos hr]
    rfl
  · rw [if_neg hr]
    have h0 : (end_ - start) % count = 0 := by omega
    simp [Except.map, h0]

theorem shardWindow_eq_onFirst (start end_ count i : Nat)
    (hse : start ≤ end_) (hc : count ≠ 0) :
    shardWindow .ON_FIRST count i start end_ =
      .ok (onFirstBound start end_ count i, onFirstBound start end_ count (i + 1)) := by
  simp only [shardWindow, _absolute_to_read_instruction_for_index, Option.getD,
    onFirstBound]
  rw [if_neg (by omega)]
  rw [if_neg hc]
  by_cases hr : 0 < (end_ - start) % count
  · rw [if_pos hr]
    rcases Nat.eq_zero_or_pos i with rfl | hi
    · simp [Except.map]
    · have hi0 : i ≠ 0 := by omega
      simp [Except.map, hi0, hi, Nat.add_right_comm]
  · rw [if_neg hr]
    have h0 : (end_ - start) % count = 0 := by omega
    rcases Nat.eq_zero_or_pos i with rfl | hi
    · simp [Except.map, h0]
    · have hi0 : i ≠ 0 := by omega
      simp [Except.map, h0, hi0]

/-! ## Boundary function facts -/

theorem dropBound_zero (start end_ count : Nat) : dropBound start end_ count 0 = start := by
  simp [dropBound]

theorem dropBound_succ_le (start end_ count i : Nat) :
    dropBound start end_ count i ≤ dropBound start end_ count (i + 1) := by
  have h1 : (end_ - start) / count * i ≤ (end_ - start) / count * (i + 1) :=
    Nat.mul_le_mul_left _ (Nat.le_add_right i 1)
  simp only [dropBound]
  omega

theorem dropBound_count (start end_ count : Nat) (hse : start ≤ end_) (_hc : count ≠ 0) :
    dropBound start end_ count count = end_ - (end_ - start) % count := by
  have h := Nat.div_add_mod (end_ - start) count
  have hle := Nat.mod_le (end_ - start) count
  simp only [dropBound]
  rw [Nat.mul_comm]
  omega

theorem balBound_zero (start end_ count : Nat) : balBound start end_ count 0 = start := by
  simp [balBound]

theorem balBound_succ_le (start end_ count i : Nat) :
    balBound start end_ count i ≤ balBound start end_ count (i + 1) := by
  have h1 : (end_ - start) / count * i ≤ (end_ - start) / count * (i + 1) :=
    Nat.mul_le_mul_left _ (Nat.le_add_right i 1)
  have h2 : min i ((end_ - start) % count) ≤ min (i + 1) ((end_ - start) % count) :=
    min_le_min (Nat.le_add_right i 1) (Nat.le_refl _)
  simp only [balBound]
  omega

theorem balBound_count (start end_ count : Nat) (hse : start ≤ end_) (hc : count ≠ 0) :
    balBound start end_ count count = end_ := by
  have h := Nat.div_add_mod (end_ - start) count
  have hmod : (end_ - start) % count < count := Nat.mod_lt _ (Nat.pos_of_ne_zero hc)
  have hmin : min count ((end_ - start) % count) = (end_ - start) % count :=
    Nat.min_eq_right (Nat.le_of_lt hmod)
  simp only [balBound, hmin]
  rw [Nat.mul_comm]
  omega

theorem onFirstBound_zero (start end_ count : Nat) : onFirstBound start end_ count 0 = start := by
  simp [onFirstBound]

theorem onFirstBound_succ_le (start end_ count i : Nat) :
    onFirstBound start end_ count i ≤ onFirstBound start end_ count (i + 1) := by
  have h1 : (end_ - start) / count * i ≤ (end_ - start) / count * (i + 1) :=
    Nat.mul_le_mul_left _ (Nat.le_add_right i 1)
  rcases Nat.eq_zero_or_pos i with rfl | hi
  · simp only [onFirstBound]
    norm_num
    omega
  · have hi0 : i ≠ 0 := by omega
    have hi1 : i + 1 ≠ 0 := by omega
    simp only [onFirstBound, hi0, hi1, if_false]
    omega

theorem onFirstBound_count (start end_ count : Nat) (hse : start ≤ end_) (hc : count ≠ 0) :
    onFirstBound start end_ count count = end_ := by
  have h := Nat.div_add_mod (end_ - start) count
  simp only [onFirstBound, hc, if_false]
  rw [Nat.mul_comm]
  omega

/-! ## Tiling of an interval by consecutive windows `[f i, f (i+1))` -/

theorem bound_le_of_le (f : Nat → Nat) (hf : ∀ i, f i ≤ f (i + 1)) {i j : Nat}
    (h : i ≤ j) : f i ≤ f j :=
  monotone_nat_of_le_succ hf h

theorem bound_exists_of_mem (f : Nat → Nat) :
    ∀ n x : Nat, f 0 ≤ x → x < f n → ∃ i, i < n ∧ f i ≤ x ∧ x < f (i + 1) := by
  intro n
  induction n with
  | zero =>
    intro x h1 h2
    exact absurd (Nat.lt_of_le_of_lt h1 h2) (Nat.lt_irrefl _)
  | succ n ih =>
    intro x h1 h2
    by_cases hx : x < f n
    · obtain ⟨i, hi, h⟩ := ih x h1 hx
      exact ⟨i, Nat.lt_succ_of_lt hi, h⟩
    · exact ⟨n, Nat.lt_succ_self n, Nat.le_of_not_lt hx, h2⟩

theorem bound_unique (f : Nat → Nat) (hf : ∀ i, f i ≤ f (i + 1)) {x i j : Nat}
    (hix : f i ≤ x) (hix2 : x < f (i + 1)) (hjx : f j ≤ x) (hjx2 : x < f (j + 1)) :
    i = j := by
  rcases Nat.lt_trichotomy i j with h | h | h
  · have : f (i + 1) ≤ f j := bound_le_of_le f hf h
    omega
  · exact h
  · have : f (j + 1) ≤ f i := bound_le_of_le f hf h
    omega

/-- All windows `[f i, f (i+1))`, `i < count`, lie inside `[start, end_)`,
are nonempty-ordered (`start ≤ fst ≤ snd ≤ end_`) and pairwise disjoint in
index order, provided `f 0 = start` and `f count ≤ end_`. -/
theorem windows_of_bounds (w : Nat → Except SplitError (Nat × Nat)) (f : Nat → Nat)
    (start end_ count : Nat)
    (hw : ∀ i, w i = .ok (f i, f (i + 1)))
    (hf : ∀ i, f i ≤ f (i + 1))
    (h0 : f 0 = start) (hcnt : f count ≤ end_) :
    (∀ i, i < count → ∃ p : Nat × Nat, w i = .ok p ∧
        start ≤ p.1 ∧ p.1 ≤ p.2 ∧ p.2 ≤ end_) ∧
    (∀ i j pi pj, i < j → j < count →
        w i = .ok pi → w j = .ok pj → pi.2 ≤ pj.1) := by
  constructor
  · intro i hi
    refine ⟨(f i, f (i + 1)), hw i, ?_, hf i, ?_⟩
    · rw [← h0]
      exact bound_le_of_le f hf (Nat.zero_le i)
    · exact Nat.le_trans (bound_le_of_le f hf hi) hcnt
  · intro i j pi pj hij hj hwi hwj
    rw [hw i] at hwi
    rw [hw j] at hwj
    cases hwi
    cases hwj
    exact bound_le_of_le f hf hij

/-! ## Claims -/

/-- C1: for every absolute range `[start, end_)` with `start ≤ end_`, every
`count ≥ 1` and every policy among DROP, BALANCE and ON_FIRST, the shard
window of every index `i < count` resolves and satisfies
`start ≤ shard_start ≤ shard_end ≤ end_`, and the windows are pairwise
non-overlapping and appear in non-decreasing index order
(`shard_end i ≤ shard_start j` whenever `i < j`). -/
theorem claim1_windows_bounded_disjoint_ordered
    (start end_ count : Nat) (r : Remainder)
    (hse : start ≤ end_) (hc : 1 ≤ count)
    (hr : r = Remainder.DROP ∨ r = Remainder.BALANCE ∨ r = Remainder.ON_FIRST) :
    (∀ i, i < count → ∃ p : Nat × Nat,
        shardWindow r count i start end_ = Except.ok p ∧
        start ≤ p.1 ∧ p.1 ≤ p.2 ∧ p.2 ≤ end_) ∧
    (∀ i j pi pj, i < j → j < count →
        shardWindow r count i start end_ = Except.ok pi →
        shardWindow r count j start end_ = Except.ok pj →
        pi.2 ≤ pj.1) := by
  have hc0 : count ≠ 0 := by omega
  rcases hr with rfl | rfl | rfl
  · exact windows_of_bounds _ (dropBound start end_ count) start end_ count
      (fun i => shardWindow_eq_drop start end_ count i hse hc0)
      (fun i => dropBound_succ_le start end_ count i)
      (dropBound_zero start end_ count)
      (by rw [dropBound_count start end_ count hse hc0]; omega)
  · exact windows_of_bounds _ (balBound start end_ count) start end_ count
      (fun i => shardWindow_eq_balance start end_ count i hse hc0)
      (fun i => balBound_succ_le start end_ count i)
      (balBound_zero start end_ count)
      (Nat.le_of_eq (balBound_count start end_ count hse hc0))
  · exact windows_of_bounds _ (onFirstBound start end_ count) start end_ count
      (fun i => shardWindow_eq_onFirst start end_ count i hse hc0)
      (fun i => onFirstBound_succ_le start end_ count i)
      (onFirstBound_zero start end_ count)
      (Nat.le_of_eq (onFirstBound_count start end_ count hse hc0))

/-- Witness for C1 at the concrete input `[2, 9)`, `count = 3`, BALANCE,
shard index 1. -/
theorem claim1_witness :
    ∃ p : Nat × Nat, shardWindow Remainder.BALANCE 3 1 2 9 = Except.ok p ∧
      2 ≤ p.1 ∧ p.1 ≤ p.2 ∧ p.2 ≤ 9 :=
  (claim1_windows_bounded_disjoint_ordered 2 9 3 Remainder.BALANCE
    (by decide) (by decide) (Or.inr (Or.inl rfl))).1 1 (by decide)

/-- C2: for `start ≤ end_`, `count ≥ 1` and `i < count`, with
`base = (end_-start) / count` and `rem = (end_-start) % count`, the BALANCE
window of shard `i` is
`[start + base*i + min i rem, start + base*(i+1) + min (i+1) rem)`; shards
`i < rem` have exactly `base + 1` elements, shards `rem ≤ i < count` have
exactly `base` elements; and the windows partition `[start, end_)` exactly:
every element lies in some shard's window, and in only one. -/
theorem claim2_balance_window_and_partition (start end_ count : Nat)
    (hse : start ≤ end_) (hc : 1 ≤ count) :
    (∀ i, i < count →
        shardWindow Remainder.BALANCE count i start end_ =
          Except.ok
            (start + (end_ - start) / count * i + min i ((end_ - start) % count),
             start + (end_ - start) / count * (i + 1) +
               min (i + 1) ((end_ - start) % count))) ∧
    (∀ i p, i < (end_ - start) % count →
        shardWindow Remainder.BALANCE count i start end_ = Except.ok p →
        p.2 - p.1 = (end_ - start) / count + 1) ∧
    (∀ i p, (end_ - start) % count ≤ i → i < count →
        shardWindow Remainder.BALANCE count i start end_ = Except.ok p →
        p.2 - p.1 = (end_ - start) / count) ∧
    (∀ x, (start ≤ x ∧ x < end_) ↔
        ∃ i p, i < count ∧
          shardWindow Remainder.BALANCE count i start end_ = Except.ok p ∧
          p.1 ≤ x ∧ x < p.2) ∧
    (∀ x i j pi pj, i < count → j < count →
        shardWindow Remainder.BALANCE count i start end_ = Except.ok pi →
        shardWindow Remainder.BALANCE count j start end_ = Except.ok pj →
        pi.1 ≤ x → x < pi.2 → pj.1 ≤ x → x < pj.2 → i = j) := by
  have hc0 : count ≠ 0 := by omega
  have hw : ∀ i, shardWindow Remainder.BALANCE count i start end_ =
      Except.ok (balBound start end_ count i, balBound start end_ count (i + 1)) :=
    fun i => shardWindow_eq_balance start end_ count i hse hc0
  have hmono := fun i => balBound_succ_le start end_ count i
  have hmul : ∀ i, (end_ - start) / count * (i + 1) =
      (end_ - start) / count * i + (end_ - start) / count := fun i => by ring
  refine ⟨?_, ?_, ?_, ?_, ?_⟩
  · intro i _
    simpa [balBound] using hw i
  · intro i p hi hp
    rw [hw i, Except.ok.injEq] at hp
    subst hp
    have h1 : min i ((end_ - start) % count) = i := Nat.min_eq_left (Nat.le_of_lt hi)
    have h2 : min (i + 1) ((end_ - start) % count) = i + 1 := Nat.min_eq_left hi
    simp only [balBound, h1, h2, hmul i]
    generalize (end_ - start) / count = B
    omega
  · intro i p hri hi hp
    rw [hw i, Except.ok.injEq] at hp
    subst hp
    have hrc : (end_ - start) % count < count := Nat.mod_lt _ (Nat.pos_of_ne_zero hc0)
    have h1 : min i ((end_ - start) % count) = (end_ - start) % count :=
      Nat.min_eq_right hri
    have h2 : min (i + 1) ((end_ - start) % count) = (end_ - start) % count :=
      Nat.min_eq_right (by omega)
    simp only [balBound, h1, h2, hmul i]
    generalize (end_ - start) / count = B
    omega
  · intro x
    constructor
    · rintro ⟨hx1, hx2⟩
      obtain ⟨i, hi, h1, h2⟩ := bound_exists_of_mem (balBound start end_ count)
        count x (by rw [balBound_zero]; exact hx1)
        (by rw [balBound_count start end_ count hse hc0]; exact hx2)
      exact ⟨i, (balBound start end_ count i, balBound start end_ count (i + 1)),
        hi, hw i, h1, h2⟩
    · rintro ⟨i, p, hi, hp, h1, h2⟩
      rw [hw i, Except.ok.injEq] at hp
      subst hp
      constructor
      · calc start = balBound start end_ count 0 := (balBound_zero _ _ _).symm
          _ ≤ balBound start end_ count i := bound_le_of_le _ hmono (Nat.zero_le i)
          _ ≤ x := h1
      · calc x < balBound start end_ count (i + 1) := h2
          _ ≤ balBound start end_ count count := bound_le_of_le _ hmono hi
          _ = end_ := balBound_count _ _ _ hse hc0
  · intro x i j pi pj hi hj hpi hpj h1 h2 h3 h4
    rw [hw i, Except.ok.injEq] at hpi
    subst hpi
    rw [hw j, Except.ok.injEq] at hpj
    subst hpj
    exact bound_unique (balBound start end_ count) hmono h1 h2 h3 h4

/-- Witness for C2 at the concrete input `[0, 9)`, `count = 4`, shard 1
(the tested scenario `9, 4, BALANCE → [3:5]`). -/
theorem claim2_witness :
    shardWindow Remainder.BALANCE 4 1 0 9 =
      Except.ok (0 + 9 / 4 * 1 + min 1 (9 % 4), 0 + 9 / 4 * 2 + min 2 (9 % 4)) :=
  (claim2_balance_window_and_partition 0 9 4 (by decide) (by decide)).1 1 (by decide)

/-- C3: for `start ≤ end_`, `count ≥ 1`, with `base = (end_-start) / count`
and `rem = (end_-start) % count`, the ON_FIRST policy gives shard 0 the
window `[start, start + base + rem)` — exactly `base + rem` elements — and
every shard `0 < i < count` the window
`[start + base*i + rem, start + base*(i+1) + rem)` — exactly `base`
elements; and the windows partition `[start, end_)` exactly. -/
theorem claim3_onfirst_window_and_partition (start end_ count : Nat)
    (hse : start ≤ end_) (hc : 1 ≤ count) :
    (shardWindow Remainder.ON_FIRST count 0 start end_ =
        Except.ok (start,
          start + (end_ - start) / count + (end_ - start) % count)) ∧
    (∀ i, 0 < i → i < count →
        shardWindow Remainder.ON_FIRST count i start end_ =
          Except.ok (start + (end_ - start) / count * i + (end_ - start) % count,
            start + (end_ - start) / count * (i + 1) + (end_ - start) % count)) ∧
    (∀ p, shardWindow Remainder.ON_FIRST count 0 start end_ = Except.ok p →
        p.2 - p.1 = (end_ - start) / count + (end_ - start) % count) ∧
    (∀ i p, 0 < i → i < count →
        shardWindow Remainder.ON_FIRST count i start end_ = Except.ok p →
        p.2 - p.1 = (end_ - start) / count) ∧
    (∀ x, (start ≤ x ∧ x < end_) ↔
        ∃ i p, i < count ∧
          shardWindow Remainder.ON_FIRST count i start end_ = Except.ok p ∧
          p.1 ≤ x ∧ x < p.2) ∧
    (∀ x i j pi pj, i < count → j < count →
        shardWindow Remainder.ON_FIRST count i start end_ = Except.ok pi →
        shardWindow Remainder.ON_FIRST count j start end_ = Except.ok pj →
        pi.1 ≤ x → x < pi.2 → pj.1 ≤ x → x < pj.2 → i = j) := by
  have hc0 : count ≠ 0 := by omega
  have hw : ∀ i, shardWindow Remainder.ON_FIRST count i start end_ =
      Except.ok (onFirstBound start end_ count i, onFirstBound start end_ count (i + 1)) :=
    fun i => shardWindow_eq_onFirst start end_ count i hse hc0
  have hmono := fun i => onFirstBound_succ_le start end_ count i
  have hmul : ∀ i, (end_ - start) / count * (i + 1) =
      (end_ - start) / count * i + (end_ - start) / count := fun i => by ring
  refine ⟨?_, ?_, ?_, ?_, ?_, ?_⟩
  · simpa [onFirstBound] using hw 0
  · intro i hi0 hic
    have h0 : i ≠ 0 := by omega
    have h1 : i + 1 ≠ 0 := by omega
    simpa [onFirstBound, h0, h1] using hw i
  · intro p hp
    rw [hw 0, Except.ok.injEq] at hp
    subst hp
    simp only [onFirstBound, Nat.mul_one]
    norm_num
    generalize (end_ - start) / count = B
    omega
  · intro i p hi0 hic hp
    rw [hw i, Except.ok.injEq] at hp
    subst hp
    have h0 : i ≠ 0 := by omega
    have h1 : i + 1 ≠ 0 := by omega
    simp only [onFirstBound, h0, h1, if_false, hmul i]
    generalize (end_ - start) / count = B
    omega
  · intro x
    constructor
    · rintro ⟨hx1, hx2⟩
      obtain ⟨i, hi, h1, h2⟩ := bound_exists_of_mem (onFirstBound start end_ count)
        count x (by rw [onFirstBound_zero]; exact hx1)
        (by rw [onFirstBound_count start end_ count hse hc0]; exact hx2)
      exact ⟨i, (onFirstBound start end_ count i, onFirstBound start end_ count (i + 1)),
        hi, hw i, h1, h2⟩
    · rintro ⟨i, p, hi, hp, h1, h2⟩
      rw [hw i, Except.ok.injEq] at hp
      subst hp
      constructor
      · calc start = onFirstBound start end_ count 0 := (onFirstBound_zero _ _ _).symm
          _ ≤ onFirstBound start end_ count i := bound_le_of_le _ hmono (Nat.zero_le i)
          _ ≤ x := h1
      · calc x < onFirstBound start end_ count (i + 1) := h2
          _ ≤ onFirstBound start end_ count count := bound_le_of_le _ hmono hi
          _ = end_ := onFirstBound_count _ _ _ hse hc0
  · intro x i j pi pj hi hj hpi hpj h1 h2 h3 h4
    rw [hw i, Except.ok.injEq] at hpi
    subst hpi
    rw [hw j, Except.ok.injEq] at hpj
    subst hpj
    exact bound_unique (onFirstBound start end_ count) hmono h1 h2 h3 h4

/-- Witness for C3 at the concrete input `[0, 11)`, `count = 3`, shard 1
(the tested scenario `11, 3, ON_FIRST → [5:8]`). -/
theorem claim3_witness :
    shardWindow Remainder.ON_FIRST 3 1 0 11 =
      Except.ok (0 + 11 / 3 * 1 + 11 % 3, 0 + 11 / 3 * 2 + 11 % 3) :=
  (claim3_onfirst_window_and_partition 0 11 3 (by decide)
    (by decide)).2.1 1 (by decide) (by decide)

/-- C4: for every `n ≥ 0` and `count ≥ 1`, the DROP policy gives every
shard `i < count` the unadjusted baseline window
`[n/count * i, n/count * (i+1))` of exactly `n / count` elements, emitting
the drop warning (not an error) exactly when `n % count ≠ 0`; the union of
the windows is exactly `[0, n - n % count)`, so the `n % count` trailing
elements belong to no shard. -/
theorem claim4_drop_baseline_and_warning (n count : Nat) (hc : 1 ≤ count) :
    (∀ i, i < count →
        _absolute_to_read_instruction_for_index ⟨"train", i, count, Remainder.DROP⟩
            ⟨"train", some 0, some n⟩ (fun _ => 0) =
          Except.ok (⟨"train", n / count * i, n / count * (i + 1)⟩,
            if n % count = 0 then none
            else some ⟨n % count, n, count⟩)) ∧
    (∀ i p, i < count → shardWindow Remainder.DROP count i 0 n = Except.ok p →
        p.2 - p.1 = n / count) ∧
    (∀ x, x < n - n % count ↔
        ∃ i p, i < count ∧ shardWindow Remainder.DROP count i 0 n = Except.ok p ∧
          p.1 ≤ x ∧ x < p.2) := by
  have hc0 : count ≠ 0 := by omega
  have hse : (0 : Nat) ≤ n := Nat.zero_le n
  have hw : ∀ i, shardWindow Remainder.DROP count i 0 n =
      Except.ok (dropBound 0 n count i, dropBound 0 n count (i + 1)) :=
    fun i => shardWindow_eq_drop 0 n count i hse hc0
  have hmono := fun i => dropBound_succ_le 0 n count i
  have hmul : ∀ i, n / count * (i + 1) = n / count * i + n / count := fun i => by ring
  have hcc : dropBound 0 n count count = n - n % count := by
    simpa using dropBound_count 0 n count hse hc0
  refine ⟨?_, ?_, ?_⟩
  · intro i _
    simp only [_absolute_to_read_instruction_for_index, Option.getD, Nat.sub_zero]
    rw [if_neg (Nat.not_lt_zero n)]
    rw [if_neg hc0]
    by_cases hr : 0 < n % count
    · rw [if_pos hr]
      rw [if_neg (by omega : ¬ n % count = 0)]
      simp
    · rw [if_neg hr]
      rw [if_pos (by omega : n % count = 0)]
      simp
  · intro i p _ hp
    rw [hw i, Except.ok.injEq] at hp
    subst hp
    simp only [dropBound, Nat.sub_zero, Nat.zero_add, hmul i]
    generalize n / count = B
    omega
  · intro x
    constructor
    · intro hx
      obtain ⟨i, hi, h1, h2⟩ := bound_exists_of_mem (dropBound 0 n count)
        count x (by rw [dropBound_zero]; exact Nat.zero_le x)
        (by rw [hcc]; exact hx)
      exact ⟨i, (dropBound 0 n count i, dropBound 0 n count (i + 1)),
        hi, hw i, h1, h2⟩
    · rintro ⟨i, p, hi, hp, h1, h2⟩
      rw [hw i, Except.ok.injEq] at hp
      subst hp
      calc x < dropBound 0 n count (i + 1) := h2
        _ ≤ dropBound 0 n count count := bound_le_of_le _ hmono hi
        _ = n - n % count := hcc

/-- Witness for C4 at the concrete input `n = 9`, `count = 4`, shard 1
(the tested scenario `9, 4, DROP → [2:4]`, last element dropped with a
warning). -/
theorem claim4_witness :
    _absolute_to_read_instruction_for_index ⟨"train", 1, 4, Remainder.DROP⟩
        ⟨"train", some 0, some 9⟩ (fun _ => 0) =
      Except.ok (⟨"train", 9 / 4 * 1, 9 / 4 * 2⟩,
        if 9 % 4 = 0 then none else some ⟨9 % 4, 9, 4⟩) :=
  (claim4_drop_baseline_and_warning 9 4 (by decide)).1 1 (by decide)

/-- The split-size lookup of the multi-range composition scenario of
`subsplits_utils_test.py`: `train` has 10 examples, `test` has 8. -/
def twoSplitSizes : String → Nat := fun name =>
  if name = "train" then 10 else if name = "test" then 8 else 0

/-- C5: resolving an expression of two named ranges — `train` of size 10
(full range, `from_`/`to` both absent) and `test` windowed to absolute
offsets `[4, 8)` of its size-8 split — into 3 sub-splits with ON_FIRST
partitions each range independently and concatenates the per-range results
in the original expression order: index 0 gives `train[0:4] + test[4:6]`,
index 1 gives `train[4:7] + test[6:7]`, index 2 gives
`train[7:10] + test[7:8]`; no remainder is balanced across the two
ranges (each range rounds its own remainder), and no warnings are emitted. -/
theorem claim5_multi_range_composition :
    (resolve ⟨"train+test[50%:]", 0, 3, Remainder.ON_FIRST⟩
        [⟨"train", none, none⟩, ⟨"test", some 4, some 8⟩] twoSplitSizes =
      Except.ok ([⟨"train", 0, 4⟩, ⟨"test", 4, 6⟩], [])) ∧
    (resolve ⟨"train+test[50%:]", 1, 3, Remainder.ON_FIRST⟩
        [⟨"train", none, none⟩, ⟨"test", some 4, some 8⟩] twoSplitSizes =
      Except.ok ([⟨"train", 4, 7⟩, ⟨"test", 6, 7⟩], [])) ∧
    (resolve ⟨"train+test[50%:]", 2, 3, Remainder.ON_FIRST⟩
        [⟨"train", none, none⟩, ⟨"test", some 4, some 8⟩] twoSplitSizes =
      Except.ok ([⟨"train", 7, 10⟩, ⟨"test", 7, 8⟩], [])) := by
  refine ⟨?_, ?_, ?_⟩ <;> decide

/-- C6: in legacy mode, `even_splits` on a bare split name with
`1 ≤ n ≤ 100` returns the `n` strings `"<name>[p_i%:p_{i+1}%]"` with
boundaries `p_i = round(i * 100 / n)`; concretely `n = 3` and `n = 4` give
the documented boundary lists, while `n = 0` and `n = 101` fail with a
`ValueError`. -/
theorem claim6_legacy_percent :
    (even_splits ("train") 3 Remainder.LEGACY_PERCENT =
        Except.ok [SplitArg.text ("train[0%:33%]"), SplitArg.text ("train[33%:67%]"),
          SplitArg.text ("train[67%:100%]")]) ∧
    (even_splits ("train") 4 Remainder.LEGACY_PERCENT =
        Except.ok [SplitArg.text ("train[0%:25%]"), SplitArg.text ("train[25%:50%]"),
          SplitArg.text ("train[50%:75%]"), SplitArg.text ("train[75%:100%]")]) ∧
    (∃ m, even_splits ("train") 0 Remainder.LEGACY_PERCENT =
        Except.error (SplitError.valueError m)) ∧
    (∃ m, even_splits ("train") 101 Remainder.LEGACY_PERCENT =
        Except.error (SplitError.valueError m)) ∧
    (∀ (name : String) (n : Int),
        name.data.contains '[' = false → name.data.contains '+' = false →
        1 ≤ n → n ≤ 100 →
        even_splits name n Remainder.LEGACY_PERCENT =
          Except.ok ((List.range n.toNat).map (fun i =>
            SplitArg.text (name ++ "[" ++ toString (pyRound (i * 100) n.toNat) ++ "%:" ++
              toString (pyRound ((i + 1) * 100) n.toNat) ++ "%]")))) := by
  refine ⟨by decide, by decide, ⟨_, rfl⟩, ⟨_, rfl⟩, ?_⟩
  intro name n h1 h2 h3 h4
  simp only [even_splits, if_pos rfl, _even_split_percent, h1, h2, Bool.or_self,
    Bool.false_eq_true, if_false]
  rw [if_neg (by omega : ¬ (n ≤ 0 ∨ 100 < n))]
  simp [Except.map, List.map_map]

/-- Witness for C6's general clause at the concrete input
`name = "validation"`, `n = 2`. -/
theorem claim6_witness :
    even_splits ("validation") 2 Remainder.LEGACY_PERCENT =
      Except.ok ((List.range (2 : Int).toNat).map (fun i =>
        SplitArg.text ("validation" ++ "[" ++ toString (pyRound (i * 100) (2 : Int).toNat) ++
          "%:" ++ toString (pyRound ((i + 1) * 100) (2 : Int).toNat) ++ "%]"))) :=
  claim6_legacy_percent.2.2.2.2 ("validation") 2 (by decide) (by decide)
    (by decide) (by decide)

theorem pyListGet_eq_none_iff {α : Type} (l : List α) (i : Int) :
    pyListGet l i = none ↔ (i < -(l.length : Int) ∨ (l.length : Int) ≤ i) := by
  simp only [pyListGet]
  by_cases hneg : i < 0
  · rw [if_pos hneg]
    by_cases hj : (0 : Int) ≤ (l.length : Int) + i
    · rw [if_pos hj, List.get?_eq_none]
      omega
    · rw [if_neg hj]
      simp only [iff_true_intro rfl, true_iff]
      omega
  · rw [if_neg hneg, if_pos (by omega : (0 : Int) ≤ i), List.get?_eq_none]
    omega

theorem pyListGet_nonneg {α : Type} (l : List α) (i : Int) (h : 0 ≤ i) :
    pyListGet l i = l.get? i.toNat := by
  simp only [pyListGet]
  rw [if_neg (by omega : ¬ i < 0), if_pos h]

/-- C7 counterexample: with an explicit `index = 0` and an absent `count`,
and the context reporting process 5 of 7, the code combines the caller's
index 0 with the context's count 7 — it does not take both values from the
context (which would give index 5), contradicting the claim that an
explicit value for one is never combined with a context default for the
other. -/
theorem claim7_counterexample :
    split_for_jax_process ("train") (some 0) none Remainder.DROP ⟨5, 7⟩ =
      Except.ok (SplitArg.lazy ⟨"train", 0, 7, Remainder.DROP⟩) ∧
    split_for_jax_process ("train") (some 0) none Remainder.DROP ⟨5, 7⟩ ≠
      Except.ok (SplitArg.lazy ⟨"train", 5, 7, Remainder.DROP⟩) := by
  exact ⟨by decide, by decide⟩

/-- C7 amended: `index` and `count` are defaulted independently — each one
that is absent is replaced by its own value from the distributed-process
context, so an explicit caller-supplied value for one IS combined with the
context default for the other. -/
theorem claim7_defaults_independent (split : String) (index count : Option Int)
    (remainder : Remainder) (jax : JaxContext) :
    split_for_jax_process split index count remainder jax =
      split_for_jax_process split (some (index.getD (jax.process_index : Int)))
        (some (count.getD (jax.process_count : Int))) remainder jax := by
  cases index <;> cases count <;> rfl

/-- C8 counterexample: resolving with the unsupported LEGACY_PERCENT policy
on the range `[0, 4)` with `count = 2` and `index = 0` (so `end ≥ start`,
`count ≥ 1`, `index ∈ [0, count)`) does NOT fail: the remainder is zero, so
the policy dispatch — and with it the `ValueError` — is skipped and the
baseline window is returned. -/
theorem claim8_counterexample :
    _absolute_to_read_instruction_for_index ⟨"train", 0, 2, Remainder.LEGACY_PERCENT⟩
        ⟨"train", some 0, some 4⟩ (fun _ => 0) =
      Except.ok (⟨"train", 0, 2⟩, none) := by decide

/-- C8 amended: for a remainder policy that is not DROP, BALANCE or
ON_FIRST, resolution fails with a `ValueError` exactly when the range size
is not divisible by `count`; when it is divisible, the unadjusted baseline
window is returned with no error. -/
theorem claim8_invalid_remainder_error_iff_indivisible
    (start end_ count i : Nat) (r : Remainder)
    (hse : start ≤ end_) (hc : 1 ≤ count) (_hi : i < count)
    (hr : ¬ (r = Remainder.DROP ∨ r = Remainder.BALANCE ∨ r = Remainder.ON_FIRST)) :
    ((end_ - start) % count = 0 →
        shardWindow r count i start end_ =
          Except.ok (start + (end_ - start) / count * i,
            start + (end_ - start) / count * (i + 1))) ∧
    ((end_ - start) % count ≠ 0 →
        shardWindow r count i start end_ =
          Except.error (SplitError.valueError ("Invalid remainder: " ++ r.pyStr))) := by
  have hrl : r = Remainder.LEGACY_PERCENT := by
    cases r
    · rfl
    all_goals simp at hr
  subst hrl
  have hc0 : count ≠ 0 := by omega
  constructor
  · intro h0
    simp only [shardWindow, _absolute_to_read_instruction_for_index, Option.getD]
    rw [if_neg (by omega : ¬ end_ < start)]
    rw [if_neg hc0]
    rw [if_neg (by omega : ¬ 0 < (end_ - start) % count)]
    rfl
  · intro hpos
    simp only [shardWindow, _absolute_to_read_instruction_for_index, Option.getD]
    rw [if_neg (by omega : ¬ end_ < start)]
    rw [if_neg hc0]
    rw [if_pos (by omega : 0 < (end_ - start) % count)]
    rfl

/-- Witness for C8's amended claim: LEGACY_PERCENT on `[0, 5)` with
`count = 2`, `index = 0` raises the `ValueError`. -/
theorem claim8_witness :
    shardWindow Remainder.LEGACY_PERCENT 2 0 0 5 =
      Except.error (SplitError.valueError
        ("Invalid remainder: " ++ Remainder.LEGACY_PERCENT.pyStr)) :=
  (claim8_invalid_remainder_error_iff_indivisible 0 5 2 0 Remainder.LEGACY_PERCENT
    (by decide) (by decide) (by decide) (by decide)).2 (by decide)

/-- C9 counterexample: with explicit `index = -1` and `count = 1` (DROP),
`-1` is outside `[0, 1)`, yet `split_for_jax_process` does not fail —
Python's negative list indexing maps `-1` to the last element, so it
returns the descriptor of shard 0. -/
theorem claim9_counterexample :
    split_for_jax_process ("train") (some (-1)) (some 1) Remainder.DROP ⟨0, 1⟩ =
      Except.ok (SplitArg.lazy ⟨"train", 0, 1, Remainder.DROP⟩) ∧
    ¬ ((0 : Int) ≤ -1 ∧ (-1 : Int) < 1) := by
  exact ⟨by decide, by decide⟩

/-- C9 amended: with explicitly supplied `index` and `count` and a
non-legacy remainder, `split_for_jax_process` fails (with `IndexError`)
iff `index` is outside `[-count, count)` — Python list indexing accepts
negative indices down to `-count` — and for every `index` in `[0, count)`
it returns element `index` of `even_splits(split, n=count,
remainder=remainder)`, the lazy descriptor
`(split, index, count, remainder)`. -/
theorem claim9_explicit_index_count (split : String) (r : Remainder)
    (jax : JaxContext) (index count : Int)
    (hr : r = Remainder.DROP ∨ r = Remainder.BALANCE ∨ r = Remainder.ON_FIRST) :
    ((∃ e, split_for_jax_process split (some index) (some count) r jax =
        Except.error e) ↔ (index < -count ∨ count ≤ index)) ∧
    (0 ≤ index → index < count →
      ∃ l a, even_splits split count r = Except.ok l ∧
        l.get? index.toNat = some a ∧
        split_for_jax_process split (some index) (some count) r jax = Except.ok a ∧
        a = SplitArg.lazy ⟨split, index.toNat, count.toNat, r⟩) := by
  have hrl : ¬ r = Remainder.LEGACY_PERCENT := by
    rcases hr with rfl | rfl | rfl <;> decide
  have hes : even_splits split count r =
      Except.ok ((List.range count.toNat).map (fun i =>
        SplitArg.lazy ⟨split, i, count.toNat, r⟩)) := by
    simp only [even_splits, if_neg hrl]
  have hlen : ((List.range count.toNat).map (fun i =>
      SplitArg.lazy ⟨split, i, count.toNat, r⟩)).length = count.toNat := by
    simp
  have hmain : split_for_jax_process split (some index) (some count) r jax =
      (match pyListGet ((List.range count.toNat).map (fun i =>
          SplitArg.lazy ⟨split, i, count.toNat, r⟩)) index with
        | some a => Except.ok a
        | none => Except.error SplitError.indexError) := by
    simp only [split_for_jax_process, hes]
  constructor
  · constructor
    · rintro ⟨e, he⟩
      rw [hmain] at he
      rcases hL : pyListGet ((List.range count.toNat).map (fun i =>
          SplitArg.lazy ⟨split, i, count.toNat, r⟩)) index with _ | a
      · have hout := (pyListGet_eq_none_iff _ index).mp hL
        rw [hlen] at hout
        omega
      · rw [hL] at he
        simp at he
    · intro hout
      refine ⟨SplitError.indexError, ?_⟩
      rw [hmain]
      have hnone : pyListGet ((List.range count.toNat).map (fun i =>
          SplitArg.lazy ⟨split, i, count.toNat, r⟩)) index = none :=
        (pyListGet_eq_none_iff _ index).mpr (by rw [hlen]; omega)
      rw [hnone]
  · intro h0 hlt
    have hget : ((List.range count.toNat).map (fun i =>
        SplitArg.lazy ⟨split, i, count.toNat, r⟩)).get? index.toNat =
        some (SplitArg.lazy ⟨split, index.toNat, count.toNat, r⟩) := by
      rw [List.get?_map, List.get?_range (by omega : index.toNat < count.toNat)]
      rfl
    refine ⟨_, _, hes, hget, ?_, rfl⟩
    rw [hmain, pyListGet_nonneg _ index h0, hget]

/-- Witness for C9's amended claim at the concrete input `index = 0`,
`count = 2`, DROP. -/
theorem claim9_witness :
    ∃ l a, even_splits ("train") 2 Remainder.DROP = Except.ok l ∧
      l.get? (0 : Int).toNat = some a ∧
      split_for_jax_process ("train") (some 0) (some 2) Remainder.DROP ⟨0, 1⟩ =
        Except.ok a ∧
      a = SplitArg.lazy ⟨"train", (0 : Int).toNat, (2 : Int).toNat, Remainder.DROP⟩ :=
  (claim9_explicit_index_count ("train") Remainder.DROP ⟨0, 1⟩ 0 2
    (Or.inl rfl)).2 (by decide) (by decide)

/-- C10: for every split expression and every non-legacy remainder policy,
`even_splits` with `n ≤ 0` returns the empty list and raises no error; in
fact the non-legacy path never fails for any `n`, so the `1 ≤ n ≤ 100`
bound is enforced only on the LEGACY_PERCENT path. -/
theorem claim10_nonlegacy_n_unrestricted (split : String) (r : Remainder) (n : Int)
    (hr : r = Remainder.DROP ∨ r = Remainder.BALANCE ∨ r = Remainder.ON_FIRST) :
    (n ≤ 0 → even_splits split n r = Except.ok []) ∧
    (∃ l, even_splits split n r = Except.ok l) := by
  have hrl : ¬ r = Remainder.LEGACY_PERCENT := by
    rcases hr with rfl | rfl | rfl <;> decide
  constructor
  · intro hn
    have h0 : n.toNat = 0 := by omega
    simp [even_splits, if_neg hrl, h0]
  · exact ⟨(List.range n.toNat).map (fun i => SplitArg.lazy ⟨split, i, n.toNat, r⟩),
      by simp only [even_splits, if_neg hrl]⟩

/-- Witness for C10 at the concrete input `n = -5`, DROP. -/
theorem claim10_witness :
    even_splits ("train") (-5) Remainder.DROP = Except.ok [] :=
  (claim10_nonlegacy_n_unrestricted ("train") Remainder.DROP (-5)
    (Or.inl rfl)).1 (by decide)

end SubsplitsUtils
